import Mathlib

/-!
Verification of the QUEST project-registry and URI/UUID utilities.

The registry state machine is a shallow embedding of `quest/api/projects.py`:
the persisted `project_index.yml` (project name -> folder mapping, in insertion
order, plus the `active_project` pointer) is modelled by `RegState`, and each
API function is translated body-by-body.  Filesystem and per-project database
effects that the registry functions perform are modelled abstractly:
`fs` records the set of existing project folders (`mkdir_if_doesnt_exist`
inserts, `shutil.rmtree` removes), and the outcome of opening a per-project
store in `add_project` is an explicit boolean oracle (`validStore`), since the
store engine itself is an external collaborator.  Path resolution against the
projects root (`os.path.join`/`os.path.isabs`) is elided: folders are kept as
the opaque strings stored in the index, which no registry-level control flow
inspects.  Python exceptions are modelled by an `Option String` error result;
callers that catch the exception still see the mutated persisted state, so
every operation returns its post-state in both the success and the error case.

The URI utilities are a shallow embedding of `quest/util/misc.py`: Python's
`str.split(sep)` and `str.split(sep, 1)` are modelled character-exactly on
`List Char` (`splitL` / `splitOnce`), `is_uuid` reproduces the
`UUID(x, version=4).hex == x` check (32 lowercase hex characters with the
version nibble `4` and an RFC-4122 variant nibble), and `classify_uris`
reproduces the sequence of overwriting type assignments performed on the
pandas column.  The random `uuid4().hex` in `uuid` is modelled by passing the
raw hex string as an explicit argument.
-/

/-! ## Registry state (project_index.yml plus modelled filesystem) -/

structure RegState where
  projects : List (String × String)
  active : String
  fs : List String
deriving DecidableEq, Repr

/-- `name in projects.keys()` on the index mapping. -/
def hasProj (ps : List (String × String)) (name : String) : Bool :=
  ps.any (fun p => p.1 == name)

/-- `projects[name]['folder']` (total; returns `""` outside its use sites,
where the key is always present). -/
def getFolder (ps : List (String × String)) (name : String) : String :=
  match ps.find? (fun p => p.1 == name) with
  | some p => p.2
  | none => ""

/-- Python's `name.lower()`, modelled per character (the registry names in
play are ASCII, where `str.lower` is exactly a character-wise map). -/
def pyLower (s : String) : String :=
  ⟨s.data.map Char.toLower⟩

/-- `util.mkdir_if_doesnt_exist`: the folder exists afterwards. -/
def insertPath (fs : List String) (p : String) : List String :=
  if p ∈ fs then fs else fs ++ [p]

/-- `get_projects()` (the default, non-expanded form): the list of keys. -/
def get_projects (s : RegState) : List String :=
  s.projects.map Prod.fst

/-- `get_active_project()`: the persisted active pointer. -/
def get_active_project (s : RegState) : String :=
  s.active

/-- `set_active_project(name)`: raises if `name` is not a key of the
registry, otherwise persists the pointer.  (The database reconnect is a
store-level effect with no registry state.) -/
def set_active_project (s : RegState) (name : String) : RegState × Option String :=
  if hasProj s.projects name then
    ({ s with active := name }, none)
  else
    (s, some ("Project " ++ name ++ " does not exist"))

/-- `new_project(name, ..., folder, activate)`.  `display_name`,
`description` and `metadata` live only in the per-project store and are
elided.  The folder defaults to `name`; `mkdir` plus store initialisation are
modelled by inserting the folder into `fs`; then the index gains the entry
and, when `activate`, `set_active_project` is called. -/
def new_project (s : RegState) (name : String) (folder : Option String)
    (activate : Bool) : RegState × Option String :=
  let name := pyLower name
  if hasProj s.projects name then
    (s, some ("Project " ++ name ++ " exists, please use a unique name"))
  else
    let folder := folder.getD name
    let s1 : RegState := { s with fs := insertPath s.fs folder,
                                  projects := s.projects ++ [(name, folder)] }
    if activate then ((set_active_project s1 name).1, none) else (s1, none)

/-- `add_project(name, path, activate)`.  `pathExists` models
`os.path.exists(path)` and `validStore` models whether `_load_project` on the
supplied folder succeeds (the store is an external collaborator).  On a load
failure the code pops the just-written entry and re-writes the index before
raising. -/
def add_project (s : RegState) (name path : String) (activate : Bool)
    (pathExists validStore : Bool) : RegState × Option String :=
  let name := pyLower name
  if hasProj s.projects name then
    (s, some ("Project " ++ name ++ " exists, please use a unique name"))
  else if !pathExists then
    (s, some ("Path does not exist: " ++ path))
  else
    let projects1 := s.projects ++ [(name, path)]
    if validStore then
      let s1 : RegState := { s with projects := projects1 }
      if activate then ((set_active_project s1 name).1, none) else (s1, none)
    else
      ({ s with projects := projects1.eraseP (fun p => p.1 == name) },
       some ("Invalid Project Folder: " ++ path))

/-- `remove_project(name)`: silently returns the unchanged registry when
`name` is not registered; otherwise deletes the entry and, when the deleted
project was the active one, reassigns the pointer (preferring `default`, then
the first remaining key, and recreating `default` via `new_project` when the
registry was emptied). -/
def remove_project (s : RegState) (name : String) : RegState :=
  if !hasProj s.projects name then s
  else
    let projects := s.projects.eraseP (fun p => p.1 == name)
    let s1 : RegState := { s with projects := projects }
    if name == s.active then
      if hasProj projects "default" then (set_active_project s1 "default").1
      else
        match projects with
        | [] => (new_project s1 "default" none true).1
        | p :: _ => (set_active_project s1 p.1).1
    else s1

/-- `delete_project(name)`: silently returns the unchanged registry when
`name` is not registered; otherwise removes the project folder from disk
(`shutil.rmtree`, modelled on `fs`) and delegates to `remove_project`. -/
def delete_project (s : RegState) (name : String) : RegState :=
  if !hasProj s.projects name then s
  else
    let folder := getFolder s.projects name
    let s1 : RegState := { s with fs := s.fs.erase folder }
    remove_project s1 name

/-- The persisted active pointer names a registered project. -/
def validActive (s : RegState) : Bool :=
  hasProj s.projects s.active

/-! ## Operation sequences -/

/-- The registry-mutating API calls quantified over by the invariants.
For `addP`, `pathExists`/`validStore` are the environment oracles. -/
inductive Op where
  | newP (name : String) (folder : Option String) (activate : Bool)
  | addP (name path : String) (activate pathExists validStore : Bool)
  | delP (name : String)
  | remP (name : String)
  | setA (name : String)
deriving DecidableEq, Repr

def applyOp (s : RegState) : Op → RegState
  | .newP n f a => (new_project s n f a).1
  | .addP n p a pe vs => (add_project s n p a pe vs).1
  | .delP n => delete_project s n
  | .remP n => remove_project s n
  | .setA n => (set_active_project s n).1

def applyOps (s : RegState) (ops : List Op) : RegState :=
  ops.foldl applyOp s

/-- A deletion call: `delete_project` or `remove_project`. -/
inductive DelOp where
  | del (name : String)
  | rem (name : String)
deriving DecidableEq, Repr

def applyDel (s : RegState) : DelOp → RegState
  | .del n => delete_project s n
  | .rem n => remove_project s n

def applyDels (s : RegState) (ops : List DelOp) : RegState :=
  ops.foldl applyDel s

def delOpName : DelOp → String
  | .del n => n
  | .rem n => n

/-! ## URI / UUID utilities (quest/util/misc.py) -/

/-- Leftmost occurrence of `sep` in `s`: `some (pre, post)` with
`s = pre ++ sep ++ post` and no occurrence of `sep` starting inside
`pre ++ sep` before the one shown; `none` when `sep` does not occur.
This is the primitive underlying Python's `str.split`. -/
def breakOn (sep : List Char) : List Char → Option (List Char × List Char)
  | [] => none
  | c :: cs =>
    if sep.isPrefixOf (c :: cs) then some ([], (c :: cs).drop sep.length)
    else
      match breakOn sep cs with
      | some (pre, post) => some (c :: pre, post)
      | none => none

/-- Fuel-driven worker for `splitL` (the fuel makes it structurally
recursive and hence kernel-computable; `splitL` supplies enough fuel). -/
def splitLF : Nat → List Char → List Char → List (List Char)
  | 0, _, s => [s]
  | fuel + 1, sep, s =>
    match breakOn sep s with
    | none => [s]
    | some (pre, post) => pre :: splitLF fuel sep post

/-- Python `s.split(sep)` for a non-empty separator, on `List Char`. -/
def splitL (sep s : List Char) : List (List Char) :=
  splitLF (s.length + 1) sep s

/-- Python `s.split(sep, 1)` for a non-empty separator, on `List Char`. -/
def splitOnce (sep s : List Char) : List (List Char) :=
  match breakOn sep s with
  | none => [s]
  | some (pre, post) => [pre, post]

/-- `parse_service_uri(uri)`: translates
`svc, feature = (uri.split('://')[-1].split('/', 1) + [None])[:2]` and
`provider, service = (svc.split(':') + [None])[:2]`.  `provider` is always a
string (Python's `split` never returns an empty list); the optional segments
resolve to `none`. -/
def parse_service_uri (uri : String) : String × Option String × Option String :=
  let tail := (splitL "://".data uri.data).getLastD uri.data
  let fs := splitOnce "/".data tail
  let svc := fs.headD []
  let feature : Option String := (fs.get? 1).map (fun l => (⟨l⟩ : String))
  let ps := splitL ":".data svc
  let provider : String := ⟨ps.headD []⟩
  let service : Option String := (ps.get? 1).map (fun l => (⟨l⟩ : String))
  (provider, service, feature)

/-- `construct_service_uri(provider, service, feature=None)`. -/
def construct_service_uri (provider service : String)
    (feature : Option String) : String :=
  let uri := "svc://" ++ provider ++ ":" ++ service
  match feature with
  | none => uri
  | some f => uri ++ "/" ++ f

/-- A lowercase hexadecimal digit (the alphabet of `UUID(...).hex`). -/
def isHexLower (c : Char) : Bool :=
  ('0' ≤ c && c ≤ '9') || ('a' ≤ c && c ≤ 'f')

/-- `is_uuid(x)` on the underlying characters: `UUID(x, version=4)`
succeeds with `.hex == x` exactly when `x` is 32 lowercase hex characters
whose version nibble (index 12) is `4` and whose variant nibble (index 16)
has high bits `10`, i.e. is one of `8/9/a/b` — the constructor forces those
two nibbles, and `.hex` is always 32 lowercase hex characters, so any other
input fails the `val.hex == uuid` comparison. -/
def isUuidChars (l : List Char) : Bool :=
  l.length == 32 && l.all isHexLower &&
    (l.get? 12 == some '4') &&
    (l.get? 16 == some '8' || l.get? 16 == some '9' ||
     l.get? 16 == some 'a' || l.get? 16 == some 'b')

/-- `is_uuid(uuid)` from misc.py. -/
def is_uuid (s : String) : Bool :=
  isUuidChars s.data

/-- Python `s.startswith(p)`. -/
def startsWithL (p s : String) : Bool :=
  p.data.isPrefixOf s.data

/-- The type assigned to a single uri by `classify_uris`: the `type`
column starts at `'collections'` and is then overwritten in program order for
the `svc://`, `pub://`, uuid-`f` and uuid-`d` index masks. -/
def classify_uri (uri : String) : String :=
  let t := "collections"
  let t := if startsWithL "svc://" uri then "services" else t
  let t := if startsWithL "pub://" uri then "publishers" else t
  let t := if is_uuid uri && startsWithL "f" uri then "features" else t
  if is_uuid uri && startsWithL "d" uri then "datasets" else t

/-- `classify_uris(uris)` restricted to its type-assignment content: each
input uri paired with the type bucket it is placed in.  (The pandas
grouping/dataframe presentation and the `exclude`/`require_same_type`
post-checks consume this assignment and are elided.) -/
def classify_uris (uris : List String) : List (String × String) :=
  uris.map (fun u => (u, classify_uri u))

/-- `uuid(resource_type)` from misc.py.  The random `uuid4().hex` draw is
passed in explicitly as `raw`; the function overwrites the first character
with `f`/`d` for the `feature`/`dataset` resource types (`'f' + uuid[1:]`). -/
def uuid (resource_type : String) (raw : String) : String :=
  let u := raw
  let u := if resource_type == "feature" then (⟨'f' :: u.data.drop 1⟩ : String) else u
  let u := if resource_type == "dataset" then (⟨'d' :: u.data.drop 1⟩ : String) else u
  u

example : parse_service_uri "usgs-nwis:iv/01529500" =
    ("usgs-nwis", some "iv", some "01529500") := by decide

example : parse_service_uri "gebco-bathymetry" =
    ("gebco-bathymetry", none, none) := by decide

example : classify_uri "svc://usgs-nwis:iv" = "services" := by decide

example : classify_uri "f0000000000040008000000000000000" = "features" := by decide

example : classify_uri "d0000000000040008000000000000000" = "datasets" := by decide

example : classify_uri "pub://abc" = "publishers" := by decide

example : classify_uri "some-collection" = "collections" := by decide

example : uuid "feature" "a0000000000040008000000000000000" =
    "f0000000000040008000000000000000" := by decide

example : parse_service_uri (construct_service_uri "a" "b:c" none) =
    ("a", some "b", none) := by decide

/-! ## Registry lemmas -/

theorem pyLower_default : pyLower "default" = "default" := by decide

theorem hasProj_exists {ps : List (String × String)} {n : String} :
    hasProj ps n = true ↔ ∃ pr ∈ ps, pr.1 = n := by
  simp [hasProj, List.any_eq_true]

theorem mem_get_projects {s : RegState} {n : String} :
    n ∈ get_projects s ↔ hasProj s.projects n = true := by
  simp [get_projects, List.mem_map, hasProj_exists]

theorem hasProj_append_one (ps : List (String × String)) (n f : String) :
    hasProj (ps ++ [(n, f)]) n = true := by
  simp [hasProj]

theorem hasProj_append_left {ps : List (String × String)} {a : String}
    (h : hasProj ps a = true) (l : List (String × String)) :
    hasProj (ps ++ l) a = true := by
  rcases hasProj_exists.1 h with ⟨pr, hm, he⟩
  exact hasProj_exists.2 ⟨pr, List.mem_append_left _ hm, he⟩

theorem hasProj_eraseP_of_ne {ps : List (String × String)} {a n : String}
    (h : hasProj ps a = true) (hne : a ≠ n) :
    hasProj (ps.eraseP (fun p => p.1 == n)) a = true := by
  rcases hasProj_exists.1 h with ⟨pr, hm, he⟩
  refine hasProj_exists.2 ⟨pr, ?_, he⟩
  rw [List.mem_eraseP_of_neg]
  · exact hm
  · simp [he, hne]

theorem eraseP_append_self (ps : List (String × String)) (n path : String)
    (h : hasProj ps n = false) :
    (ps ++ [(n, path)]).eraseP (fun p => p.1 == n) = ps := by
  rw [List.eraseP_append_right, List.eraseP_cons_of_pos (by simp)]
  · simp
  · intro b hb
    simp only [hasProj, List.any_eq_false] at h
    exact h b hb

theorem length_pos_of_valid {s : RegState} (h : validActive s = true) :
    1 ≤ s.projects.length := by
  cases hps : s.projects with
  | nil => rw [validActive, hps] at h; simp [hasProj] at h
  | cons q l => simp [hps]

theorem validActive_set_active {s : RegState} (n : String)
    (h : validActive s = true) : validActive (set_active_project s n).1 = true := by
  cases hn : hasProj s.projects n with
  | true => simp [set_active_project, hn, validActive]
  | false => simpa [set_active_project, hn] using h

theorem validActive_new {s : RegState} (n : String) (f : Option String) (a : Bool)
    (h : validActive s = true) : validActive (new_project s n f a).1 = true := by
  have h' : hasProj s.projects s.active = true := h
  cases hdup : hasProj s.projects (pyLower n) with
  | true => simpa [new_project, hdup] using h
  | false =>
    have hv1 : ∀ fl : String,
        validActive { s with fs := insertPath s.fs fl,
                             projects := s.projects ++ [(pyLower n, fl)] } = true := by
      intro fl
      simpa [validActive] using hasProj_append_left h' [(pyLower n, fl)]
    cases a with
    | true =>
      simp only [new_project, hdup, Bool.false_eq_true, if_false, if_true]
      exact validActive_set_active _ (hv1 _)
    | false =>
      simp only [new_project, hdup, Bool.false_eq_true, if_false]
      exact hv1 _

theorem validActive_add {s : RegState} (n p : String) (a pe vs : Bool)
    (h : validActive s = true) : validActive (add_project s n p a pe vs).1 = true := by
  have h' : hasProj s.projects s.active = true := h
  cases hdup : hasProj s.projects (pyLower n) with
  | true => simpa [add_project, hdup] using h
  | false =>
    cases pe with
    | false => simpa [add_project, hdup] using h
    | true =>
      cases vs with
      | false =>
        simpa [add_project, hdup, eraseP_append_self _ _ _ hdup, validActive] using h'
      | true =>
        have hv1 : validActive { s with projects := s.projects ++ [(pyLower n, p)] } = true := by
          simpa [validActive] using hasProj_append_left h' [(pyLower n, p)]
        cases a with
        | true =>
          simp only [add_project, hdup, Bool.false_eq_true, if_false, if_true,
            Bool.not_true, Bool.not_false]
          exact validActive_set_active _ hv1
        | false =>
          simp only [add_project, hdup, Bool.false_eq_true, if_false, if_true,
            Bool.not_true, Bool.not_false]
          exact hv1

theorem validActive_remove {s : RegState} (n : String)
    (h : validActive s = true) : validActive (remove_project s n) = true := by
  have h' : hasProj s.projects s.active = true := h
  cases hp : hasProj s.projects n with
  | false => simpa [remove_project, hp] using h
  | true =>
    cases hact : n == s.active with
    | false =>
      have hne : s.active ≠ n := fun he => by simp [he] at hact
      simpa [remove_project, hp, hact, validActive] using hasProj_eraseP_of_ne h' hne
    | true =>
      cases hd : hasProj (s.projects.eraseP (fun p => p.1 == n)) "default" with
      | true =>
        simp [remove_project, hp, hact, hd, set_active_project, validActive]
      | false =>
        cases hE : s.projects.eraseP (fun p => p.1 == n) with
        | nil =>
          rw [hE] at hd
          have hrw : remove_project s n =
              (new_project { s with projects := [] } "default" none true).1 := by
            simp [remove_project, hp, hact, hd, hE]
          rw [hrw]
          simp [new_project, pyLower_default, set_active_project, insertPath,
            validActive, hasProj]
        | cons q rest =>
          rw [hE] at hd
          have hrw : remove_project s n =
              (set_active_project { s with projects := q :: rest } q.1).1 := by
            simp [remove_project, hp, hact, hd, hE]
          rw [hrw]
          simp [set_active_project, validActive, hasProj]

theorem validActive_delete {s : RegState} (n : String)
    (h : validActive s = true) : validActive (delete_project s n) = true := by
  cases hp : hasProj s.projects n with
  | false => simpa [delete_project, hp] using h
  | true =>
    simp only [delete_project, hp, Bool.not_true, Bool.false_eq_true, if_false]
    exact validActive_remove n h

theorem validActive_applyOp {s : RegState} (op : Op) (h : validActive s = true) :
    validActive (applyOp s op) = true := by
  cases op with
  | newP n f a => exact validActive_new n f a h
  | addP n p a pe vs => exact validActive_add n p a pe vs h
  | delP n => exact validActive_delete n h
  | remP n => exact validActive_remove n h
  | setA n => exact validActive_set_active n h

theorem validActive_applyOps {s : RegState} (ops : List Op) (h : validActive s = true) :
    validActive (applyOps s ops) = true := by
  induction ops generalizing s with
  | nil => simpa [applyOps] using h
  | cons op rest ih =>
    simp only [applyOps, List.foldl_cons]
    exact ih (validActive_applyOp op h)

theorem validActive_applyDel {s : RegState} (op : DelOp) (h : validActive s = true) :
    validActive (applyDel s op) = true := by
  cases op with
  | del n => exact validActive_delete n h
  | rem n => exact validActive_remove n h

theorem validActive_applyDels {s : RegState} (ops : List DelOp) (h : validActive s = true) :
    validActive (applyDels s ops) = true := by
  induction ops generalizing s with
  | nil => simpa [applyDels] using h
  | cons op rest ih =>
    simp only [applyDels, List.foldl_cons]
    exact ih (validActive_applyDel op h)

theorem emptied_facts {s : RegState} {n : String} (h : validActive s = true)
    (hE : s.projects.eraseP (fun p => p.1 == n) = []) :
    hasProj s.projects n = true ∧ n = s.active := by
  rcases List.eraseP_eq_nil.1 hE with hnil | ⟨q, hq, hps⟩
  · rw [validActive, hnil] at h
    simp [hasProj] at h
  · have hq1 : q.1 = n := by simpa using hq
    have h' : hasProj s.projects s.active = true := h
    rw [hps] at h'
    rcases hasProj_exists.1 h' with ⟨pr, hm, he⟩
    have hpr : pr = q := by simpa using hm
    subst hpr
    constructor
    · rw [hps]
      exact hasProj_exists.2 ⟨pr, by simp, hq1⟩
    · rw [← hq1, he]

theorem remove_emptied {s : RegState} {n : String} (h : validActive s = true)
    (hE : s.projects.eraseP (fun p => p.1 == n) = []) :
    (remove_project s n).projects = [("default", "default")] ∧
    (remove_project s n).active = "default" := by
  rcases emptied_facts h hE with ⟨hp, hact⟩
  have hd : hasProj (s.projects.eraseP (fun p => p.1 == n)) "default" = false := by
    rw [hE]; simp [hasProj]
  rw [hE] at hd
  have hrw : remove_project s n =
      (new_project { s with projects := [] } "default" none true).1 := by
    simp [remove_project, hp, ← hact, hd, hE]
  rw [hrw]
  simp [new_project, pyLower_default, set_active_project, insertPath, hasProj]

theorem delete_emptied {s : RegState} {n : String} (h : validActive s = true)
    (hE : s.projects.eraseP (fun p => p.1 == n) = []) :
    (delete_project s n).projects = [("default", "default")] ∧
    (delete_project s n).active = "default" := by
  rcases emptied_facts h hE with ⟨hp, _⟩
  have hrw : delete_project s n =
      remove_project { s with fs := s.fs.erase (getFolder s.projects n) } n := by
    simp [delete_project, hp]
  rw [hrw]
  exact @remove_emptied { s with fs := s.fs.erase (getFolder s.projects n) } n h hE

theorem applyDel_emptied {t : RegState} {op : DelOp} (h : validActive t = true)
    (hE : t.projects.eraseP (fun p => p.1 == delOpName op) = []) :
    (applyDel t op).projects = [("default", "default")] ∧
    (applyDel t op).active = "default" := by
  cases op with
  | del n => exact delete_emptied h hE
  | rem n => exact remove_emptied h hE

/-- C1: Non-empty registry invariant.  Starting from a state whose active
pointer names a registered project, after any sequence of `delete_project`
and/or `remove_project` calls the registry still contains at least one
project; and whenever a single such call deletes the last registry entry
(the index left by the `del` is empty), a project named `default` exists —
and is active — after the call returns. -/
theorem nonempty_registry_invariant :
    (∀ (s : RegState) (ops : List DelOp), validActive s = true →
       1 ≤ (get_projects (applyDels s ops)).length) ∧
    (∀ (t : RegState) (op : DelOp), validActive t = true →
       t.projects.eraseP (fun p => p.1 == delOpName op) = [] →
       hasProj (applyDel t op).projects "default" = true ∧
       (applyDel t op).active = "default") := by
  constructor
  · intro s ops h
    have hv := validActive_applyDels ops h
    simpa [get_projects] using length_pos_of_valid hv
  · intro t op h hE
    rcases applyDel_emptied h hE with ⟨h1, h2⟩
    refine ⟨?_, h2⟩
    rw [h1]
    decide

/-- Witness for C1 at concrete inputs: deleting the lone `default` project
(here twice, mixing both entry points) leaves a one-element registry, and
removing the last project `p1` recreates and activates `default`. -/
theorem nonempty_registry_invariant_witness :
    (1 ≤ (get_projects (applyDels ⟨[("default", "default")], "default", ["default"]⟩
        [DelOp.del "default", DelOp.rem "default"])).length) ∧
    (hasProj (applyDel ⟨[("p1", "f1")], "p1", ["f1"]⟩ (DelOp.rem "p1")).projects
        "default" = true ∧
     (applyDel ⟨[("p1", "f1")], "p1", ["f1"]⟩ (DelOp.rem "p1")).active = "default") :=
  ⟨nonempty_registry_invariant.1 _ _ (by decide),
   nonempty_registry_invariant.2 ⟨[("p1", "f1")], "p1", ["f1"]⟩ (DelOp.rem "p1")
     (by decide) (by decide)⟩

/-- C2: Active-pointer validity invariant.  Starting from a state where the
persisted active pointer names a registered project, after any sequence of
`new_project`, `add_project`, `delete_project`, `remove_project` and
`set_active_project` calls, `get_active_project()` returns a name present in
`get_projects()`. -/
theorem active_pointer_validity :
    ∀ (s : RegState) (ops : List Op), validActive s = true →
      get_active_project (applyOps s ops) ∈ get_projects (applyOps s ops) := by
  intro s ops h
  exact mem_get_projects.2 (validActive_applyOps ops h)

/-- Witness for C2 at a concrete input: a sequence mixing creations (with
and without activation), a failing registration, deletions of active and
non-active projects, and pointer switches. -/
theorem active_pointer_validity_witness :
    get_active_project (applyOps ⟨[("default", "default")], "default", ["default"]⟩
        [Op.newP "A" none true, Op.addP "B" "/bad" true true false,
         Op.setA "default", Op.delP "a", Op.remP "default"]) ∈
      get_projects (applyOps ⟨[("default", "default")], "default", ["default"]⟩
        [Op.newP "A" none true, Op.addP "B" "/bad" true true false,
         Op.setA "default", Op.delP "a", Op.remP "default"]) :=
  active_pointer_validity _ _ (by decide)

theorem remove_project_fs (s : RegState) (f : List String) (n : String) :
    (remove_project { s with fs := f } n).projects = (remove_project s n).projects ∧
    (remove_project { s with fs := f } n).active = (remove_project s n).active := by
  cases hp : hasProj s.projects n with
  | false => simp [remove_project, hp]
  | true =>
    cases hact : n == s.active with
    | false => simp [remove_project, hp, hact]
    | true =>
      cases hd : hasProj (s.projects.eraseP (fun p => p.1 == n)) "default" with
      | true => simp [remove_project, hp, hact, hd, set_active_project]
      | false =>
        cases hE : s.projects.eraseP (fun p => p.1 == n) with
        | nil =>
          rw [hE] at hd
          have h1 : remove_project { s with fs := f } n =
              (new_project { s with projects := ([] : List (String × String)), fs := f }
                "default" none true).1 := by
            simp [remove_project, hp, hact, hd, hE]
          have h2 : remove_project s n =
              (new_project { s with projects := ([] : List (String × String)) }
                "default" none true).1 := by
            simp [remove_project, hp, hact, hd, hE]
          rw [h1, h2]
          simp [new_project, pyLower_default, set_active_project, insertPath, hasProj]
        | cons q rest =>
          rw [hE] at hd
          have h1 : remove_project { s with fs := f } n =
              (set_active_project { s with projects := q :: rest, fs := f } q.1).1 := by
            simp [remove_project, hp, hact, hd, hE]
          have h2 : remove_project s n =
              (set_active_project { s with projects := q :: rest } q.1).1 := by
            simp [remove_project, hp, hact, hd, hE]
          rw [h1, h2]
          simp [set_active_project, hasProj]

/-- C3: Active-pointer reassignment policy.  When `remove_project` (and
hence `delete_project`, which delegates to it) removes the currently active
project, the new active project is `default` when a project of that name
remains; otherwise the first remaining project in index iteration order;
otherwise a fresh `default` project is created (folder `default`) and
activated.  Removing a non-active project leaves the pointer unchanged, and
`delete_project` produces the same registry and pointer as `remove_project`
(it additionally removes the folder from disk). -/
theorem active_reassignment_policy :
    ∀ (s : RegState) (name : String), validActive s = true →
      hasProj s.projects name = true →
      ((name = s.active →
          hasProj (s.projects.eraseP (fun p => p.1 == name)) "default" = true →
          (remove_project s name).active = "default") ∧
       (name = s.active →
          hasProj (s.projects.eraseP (fun p => p.1 == name)) "default" = false →
          ∀ q rest, s.projects.eraseP (fun p => p.1 == name) = q :: rest →
            (remove_project s name).active = q.1) ∧
       (name = s.active → s.projects.eraseP (fun p => p.1 == name) = [] →
          (remove_project s name).projects = [("default", "default")] ∧
          (remove_project s name).active = "default") ∧
       (name ≠ s.active → (remove_project s name).active = s.active) ∧
       (delete_project s name).active = (remove_project s name).active ∧
       (delete_project s name).projects = (remove_project s name).projects) := by
  intro s name hv hp
  refine ⟨?_, ?_, ?_, ?_, ?_, ?_⟩
  · intro hact hd
    have hact' : (name == s.active) = true := by simp [hact]
    simp [remove_project, hp, hact', hd, set_active_project]
  · intro hact hd q rest hE
    have hact' : (name == s.active) = true := by simp [hact]
    rw [hE] at hd
    have hrw : remove_project s name =
        (set_active_project { s with projects := q :: rest } q.1).1 := by
      simp [remove_project, hp, hact', hd, hE]
    rw [hrw]
    simp [set_active_project, hasProj]
  · intro _ hE
    exact remove_emptied hv hE
  · intro hne
    have hact' : (name == s.active) = false := by simp [hne]
    simp [remove_project, hp, hact']
  · have hrw : delete_project s name =
        remove_project { s with fs := s.fs.erase (getFolder s.projects name) } name := by
      simp [delete_project, hp]
    rw [hrw]
    exact (remove_project_fs s _ name).2
  · have hrw : delete_project s name =
        remove_project { s with fs := s.fs.erase (getFolder s.projects name) } name := by
      simp [delete_project, hp]
    rw [hrw]
    exact (remove_project_fs s _ name).1

/-- Witness for C3: removing the active `p1` from a registry that still
holds `default` reassigns the pointer to `default`. -/
theorem active_reassignment_policy_witness :
    (remove_project ⟨[("default", "d"), ("p1", "f1"), ("p2", "f2")], "p1", []⟩
        "p1").active = "default" :=
  (active_reassignment_policy ⟨[("default", "d"), ("p1", "f1"), ("p2", "f2")], "p1", []⟩
      "p1" (by decide) (by decide)).1 (by decide) (by decide)

/-- C4: Duplicate-name creation is rejected atomically: whenever the
lower-cased name is already a registry key, `new_project` (and likewise
`add_project`) reports an error and leaves the whole state — registry,
active pointer and folders — exactly as it was. -/
theorem duplicate_name_rejected :
    ∀ (s : RegState) (name : String) (folder : Option String) (activate : Bool)
      (path : String) (pe vs : Bool),
      hasProj s.projects (pyLower name) = true →
      ((new_project s name folder activate).1 = s ∧
       (new_project s name folder activate).2.isSome = true ∧
       (add_project s name path activate pe vs).1 = s ∧
       (add_project s name path activate pe vs).2.isSome = true) := by
  intro s name folder activate path pe vs h
  refine ⟨?_, ?_, ?_, ?_⟩ <;> simp [new_project, add_project, h]

/-- Witness for C4: creating `"X"` when `x` is already registered fails and
leaves the state unchanged. -/
theorem duplicate_name_rejected_witness :
    ((new_project ⟨[("x", "x")], "x", ["x"]⟩ "X" none true).1 = ⟨[("x", "x")], "x", ["x"]⟩ ∧
     (new_project ⟨[("x", "x")], "x", ["x"]⟩ "X" none true).2.isSome = true ∧
     (add_project ⟨[("x", "x")], "x", ["x"]⟩ "X" "/p" true true true).1 =
       ⟨[("x", "x")], "x", ["x"]⟩ ∧
     (add_project ⟨[("x", "x")], "x", ["x"]⟩ "X" "/p" true true true).2.isSome = true) :=
  duplicate_name_rejected ⟨[("x", "x")], "x", ["x"]⟩ "X" none true "/p" true true (by decide)

/-- C5: Deleting an unknown name is a silent no-op: for every name that is
not a registry key, `delete_project` and `remove_project` raise no error and
return with the whole state — registry, active pointer and folders —
untouched (the not-found check happens before any folder removal). -/
theorem delete_unknown_silent_noop :
    ∀ (s : RegState) (name : String), hasProj s.projects name = false →
      delete_project s name = s ∧ remove_project s name = s := by
  intro s name h
  constructor <;> simp [delete_project, remove_project, h]

/-- Witness for C5: deleting the unregistered `nope` changes nothing. -/
theorem delete_unknown_silent_noop_witness :
    delete_project ⟨[("default", "d")], "default", ["d"]⟩ "nope" =
        ⟨[("default", "d")], "default", ["d"]⟩ ∧
    remove_project ⟨[("default", "d")], "default", ["d"]⟩ "nope" =
        ⟨[("default", "d")], "default", ["d"]⟩ :=
  delete_unknown_silent_noop ⟨[("default", "d")], "default", ["d"]⟩ "nope" (by decide)

/-- C6: `add_project` failure is rolled back: when the store at `path`
cannot be loaded as a valid project database the call reports an error and
the state after the failed call equals the state before it (the partially
written registry entry is popped before the error propagates); when `path`
does not exist the call fails before any registry mutation. -/
theorem add_project_rollback :
    ∀ (s : RegState) (name path : String) (activate pathExists validStore : Bool),
      (validStore = false →
        (add_project s name path activate pathExists validStore).1 = s ∧
        (add_project s name path activate pathExists validStore).2.isSome = true) ∧
      (pathExists = false →
        (add_project s name path activate pathExists validStore).1 = s ∧
        (add_project s name path activate pathExists validStore).2.isSome = true) := by
  intro s name path activate pe vs
  constructor
  · rintro rfl
    cases hdup : hasProj s.projects (pyLower name) with
    | true => simp [add_project, hdup]
    | false =>
      cases pe with
      | false => simp [add_project, hdup]
      | true =>
        refine ⟨?_, by simp [add_project, hdup]⟩
        simp [add_project, hdup, eraseP_append_self _ _ _ hdup]
  · rintro rfl
    cases hdup : hasProj s.projects (pyLower name) with
    | true => simp [add_project, hdup]
    | false => simp [add_project, hdup]

/-- Witness for C6: registering `b` from an existing folder whose store
fails to load reports the error and restores the prior state; a missing
path fails with the state untouched. -/
theorem add_project_rollback_witness :
    ((add_project ⟨[("a", "fa")], "a", ["fa", "fb"]⟩ "b" "fb" true true false).1 =
        ⟨[("a", "fa")], "a", ["fa", "fb"]⟩ ∧
     (add_project ⟨[("a", "fa")], "a", ["fa", "fb"]⟩ "b" "fb" true true false).2.isSome =
        true) ∧
    ((add_project ⟨[("a", "fa")], "a", ["fa", "fb"]⟩ "c" "nope" true false true).1 =
        ⟨[("a", "fa")], "a", ["fa", "fb"]⟩ ∧
     (add_project ⟨[("a", "fa")], "a", ["fa", "fb"]⟩ "c" "nope" true false true).2.isSome =
        true) :=
  ⟨(add_project_rollback ⟨[("a", "fa")], "a", ["fa", "fb"]⟩ "b" "fb" true true false).1 rfl,
   (add_project_rollback ⟨[("a", "fa")], "a", ["fa", "fb"]⟩ "c" "nope" true false true).2 rfl⟩

/-! ## Split lemmas -/

theorem breakOn_some_length {sep : List Char} (hsep : sep ≠ []) :
    ∀ {s pre post : List Char}, breakOn sep s = some (pre, post) →
      post.length < s.length := by
  intro s
  induction s with
  | nil => intro pre post h; simp [breakOn] at h
  | cons c cs ih =>
    intro pre post h
    rw [breakOn] at h
    by_cases hpre : sep.isPrefixOf (c :: cs) = true
    · rw [if_pos hpre] at h
      have hpost : post = (c :: cs).drop sep.length := by
        cases h; rfl
      have hlen : 1 ≤ sep.length := List.length_pos.2 hsep
      rw [hpost, List.length_drop]
      simp only [List.length_cons]
      omega
    · rw [if_neg hpre] at h
      cases hbk : breakOn sep cs with
      | none => rw [hbk] at h; simp at h
      | some pr =>
        obtain ⟨pre', post'⟩ := pr
        rw [hbk] at h
        have hpost : post' = post := by cases h; rfl
        have := ih hbk
        rw [hpost] at this
        calc post.length < cs.length := this
          _ < (c :: cs).length := by simp

theorem splitLF_congr {sep : List Char} (hsep : sep ≠ []) :
    ∀ (f1 f2 : Nat) (s : List Char), s.length < f1 → s.length < f2 →
      splitLF f1 sep s = splitLF f2 sep s := by
  intro f1
  induction f1 with
  | zero => intro f2 s h1 _; exact absurd h1 (Nat.not_lt_zero _)
  | succ f ih =>
    intro f2 s h1 h2
    cases f2 with
    | zero => exact absurd h2 (Nat.not_lt_zero _)
    | succ f2' =>
      rw [splitLF, splitLF]
      cases hbk : breakOn sep s with
      | none => rfl
      | some pr =>
        obtain ⟨pre, post⟩ := pr
        have hlt := breakOn_some_length hsep hbk
        show pre :: splitLF f sep post = pre :: splitLF f2' sep post
        rw [ih f2' post (by omega) (by omega)]

theorem splitL_break_none {sep s : List Char} (h : breakOn sep s = none) :
    splitL sep s = [s] := by
  rw [splitL, splitLF, h]

theorem splitL_break_some {sep s pre post : List Char} (hsep : sep ≠ [])
    (h : breakOn sep s = some (pre, post)) :
    splitL sep s = pre :: splitL sep post := by
  have hlt := breakOn_some_length hsep h
  rw [splitL, splitLF, h]
  show pre :: splitLF s.length sep post = pre :: splitL sep post
  rw [splitL, splitLF_congr hsep s.length (post.length + 1) post (by omega) (by omega)]

theorem breakOn_self3 (a b c : Char) (rest : List Char) :
    breakOn [a, b, c] (a :: b :: c :: rest) = some ([], rest) := by
  have hpre : ([a, b, c] : List Char).isPrefixOf (a :: b :: c :: rest) = true := by
    simp [List.isPrefixOf]
  rw [breakOn, if_pos hpre]
  rfl

theorem breakOn_self1 (a : Char) (rest : List Char) :
    breakOn [a] (a :: rest) = some ([], rest) := by
  have hpre : ([a] : List Char).isPrefixOf (a :: rest) = true := by
    simp [List.isPrefixOf]
  rw [breakOn, if_pos hpre]
  rfl

theorem breakOn_cons_ne {x : Char} {sep' : List Char} {c : Char} {cs : List Char}
    (h : c ≠ x) :
    breakOn (x :: sep') (c :: cs) =
      (breakOn (x :: sep') cs).map (fun pr => (c :: pr.1, pr.2)) := by
  have hpre : ((x :: sep') : List Char).isPrefixOf (c :: cs) = false := by
    rw [List.isPrefixOf_cons₂, beq_eq_false_iff_ne.2 (Ne.symm h)]
    simp
  rw [breakOn, if_neg (by simp [hpre])]
  cases breakOn (x :: sep') cs with
  | none => rfl
  | some pr => cases pr; rfl

theorem breakOn_cons_notPrefix {sep : List Char} {c : Char} {cs : List Char}
    (h : sep.isPrefixOf (c :: cs) = false) :
    breakOn sep (c :: cs) = (breakOn sep cs).map (fun pr => (c :: pr.1, pr.2)) := by
  rw [breakOn, if_neg (by simp [h])]
  cases breakOn sep cs with
  | none => rfl
  | some pr => cases pr; rfl

theorem breakOn_append_not_mem {x : Char} {sep' : List Char} {p : List Char}
    (rest : List Char) (hx : x ∉ p) :
    breakOn (x :: sep') (p ++ rest) =
      (breakOn (x :: sep') rest).map (fun pr => (p ++ pr.1, pr.2)) := by
  induction p with
  | nil =>
    simp only [List.nil_append]
    cases breakOn (x :: sep') rest with
    | none => rfl
    | some pr => cases pr; rfl
  | cons c p' ih =>
    have hcx : c ≠ x := fun he => hx (by simp [he])
    have hx' : x ∉ p' := fun hm => hx (List.mem_cons_of_mem _ hm)
    rw [List.cons_append, breakOn_cons_ne hcx, ih hx']
    cases breakOn (x :: sep') rest with
    | none => rfl
    | some pr => cases pr; rfl

theorem breakOn_none_of_not_mem {x : Char} {sep' : List Char} {s : List Char}
    (hx : x ∉ s) : breakOn (x :: sep') s = none := by
  have h := @breakOn_append_not_mem x sep' s [] hx
  rw [List.append_nil] at h
  rw [h]
  rfl

theorem isPrefixOf_false_of_head_ne {y c : Char} {ys l : List Char} (h : y ≠ c) :
    (y :: ys).isPrefixOf (c :: l) = false := by
  rw [List.isPrefixOf_cons₂]
  simp [h]

theorem isPrefixOf_false_of_not_mem {y : Char} {ys l : List Char} (h : y ∉ l) :
    (y :: ys).isPrefixOf l = false := by
  cases l with
  | nil => rfl
  | cons c cs =>
    have hyc : y ≠ c := fun he => h (by simp [he])
    exact isPrefixOf_false_of_head_ne hyc

theorem head_eq_of_isPrefixOf_cons {y : Char} {ys l : List Char}
    (h : (y :: ys).isPrefixOf l = true) : ∃ t, l = y :: t := by
  cases l with
  | nil => simp at h
  | cons c cs =>
    rw [List.isPrefixOf_cons₂] at h
    rcases Bool.and_eq_true_iff.1 h with ⟨h1, _⟩
    exact ⟨cs, by rw [beq_iff_eq.1 h1]⟩

/-! ## Classification lemmas -/

theorem is_uuid_head_hex {u : String} (h : is_uuid u = true) {y : Char} {ys : List Char}
    (hp : (y :: ys).isPrefixOf u.data = true) : isHexLower y = true := by
  obtain ⟨t, ht⟩ := head_eq_of_isPrefixOf_cons hp
  have hall : u.data.all isHexLower = true := by
    simp only [is_uuid, isUuidChars, Bool.and_eq_true] at h
    exact h.1.1.2
  rw [ht, List.all_cons, Bool.and_eq_true] at hall
  exact hall.1

theorem not_uuid_svc {u : String} (hs : startsWithL "svc://" u = true) :
    is_uuid u = false := by
  cases hu : is_uuid u with
  | false => rfl
  | true =>
    have hp : (('s' : Char) :: ['v', 'c', ':', '/', '/']).isPrefixOf u.data = true := hs
    have := is_uuid_head_hex hu hp
    exact absurd this (by decide)

theorem not_uuid_pub {u : String} (hs : startsWithL "pub://" u = true) :
    is_uuid u = false := by
  cases hu : is_uuid u with
  | false => rfl
  | true =>
    have hp : (('p' : Char) :: ['u', 'b', ':', '/', '/']).isPrefixOf u.data = true := hs
    have := is_uuid_head_hex hu hp
    exact absurd this (by decide)

theorem startsWithL_false_of_head {u : String} {a b : Char} {bs t : List Char}
    (ht : u.data = a :: t) (hne : b ≠ a) :
    (b :: bs).isPrefixOf u.data = false := by
  rw [ht]
  exact isPrefixOf_false_of_head_ne hne

/-- C7: URI classification.  `classify_uris` assigns each input string
exactly one type bucket: a token passing the uuid4 check whose first
character is `f` goes to `features`, one whose first character is `d` goes
to `datasets`, a `svc://`-prefixed string goes to `services`, a
`pub://`-prefixed string goes to `publishers`, and every other string goes
to `collections`.  The assignment is a pure function of the string
(`classify_uri`), applied pointwise. -/
theorem classify_uris_types :
    ∀ u : String,
      ((is_uuid u = true ∧ startsWithL "f" u = true) →
        classify_uris [u] = [(u, "features")]) ∧
      ((is_uuid u = true ∧ startsWithL "d" u = true) →
        classify_uris [u] = [(u, "datasets")]) ∧
      (startsWithL "svc://" u = true → classify_uris [u] = [(u, "services")]) ∧
      (startsWithL "pub://" u = true → classify_uris [u] = [(u, "publishers")]) ∧
      ((startsWithL "svc://" u = false ∧ startsWithL "pub://" u = false ∧
        (is_uuid u && startsWithL "f" u) = false ∧
        (is_uuid u && startsWithL "d" u) = false) →
        classify_uris [u] = [(u, "collections")]) := by
  intro u
  refine ⟨?_, ?_, ?_, ?_, ?_⟩
  · rintro ⟨hu, hf⟩
    obtain ⟨t, ht⟩ := head_eq_of_isPrefixOf_cons (show (('f' : Char) :: []).isPrefixOf u.data = true from hf)
    have hdf : startsWithL "d" u = false :=
      startsWithL_false_of_head ht (by decide)
    simp [classify_uris, classify_uri, hu, hf, hdf]
  · rintro ⟨hu, hd⟩
    obtain ⟨t, ht⟩ := head_eq_of_isPrefixOf_cons (show (('d' : Char) :: []).isPrefixOf u.data = true from hd)
    have hdf : startsWithL "f" u = false :=
      startsWithL_false_of_head ht (by decide)
    simp [classify_uris, classify_uri, hu, hd, hdf]
  · intro hs
    obtain ⟨t, ht⟩ := head_eq_of_isPrefixOf_cons
      (show (('s' : Char) :: ['v', 'c', ':', '/', '/']).isPrefixOf u.data = true from hs)
    have hu := not_uuid_svc hs
    have hpub : startsWithL "pub://" u = false :=
      startsWithL_false_of_head ht (by decide)
    simp [classify_uris, classify_uri, hs, hu, hpub]
  · intro hp
    obtain ⟨t, ht⟩ := head_eq_of_isPrefixOf_cons
      (show (('p' : Char) :: ['u', 'b', ':', '/', '/']).isPrefixOf u.data = true from hp)
    have hu := not_uuid_pub hp
    have hsvc : startsWithL "svc://" u = false :=
      startsWithL_false_of_head ht (by decide)
    simp [classify_uris, classify_uri, hp, hu, hsvc]
  · rintro ⟨h1, h2, h3, h4⟩
    have h3' : ¬(is_uuid u = true ∧ startsWithL "f" u = true) := by
      intro hc
      rw [hc.1, hc.2] at h3
      simp at h3
    have h4' : ¬(is_uuid u = true ∧ startsWithL "d" u = true) := by
      intro hc
      rw [hc.1, hc.2] at h4
      simp at h4
    simp [classify_uris, classify_uri, h1, h2, h3, h4, h3', h4']

/-- Witness for C7: a well-formed uuid4 hex token tagged `f` is classified
as `features`. -/
theorem classify_uris_types_witness :
    classify_uris ["f0000000000040008000000000000000"] =
      [("f0000000000040008000000000000000", "features")] :=
  (classify_uris_types "f0000000000040008000000000000000").1 ⟨by decide, by decide⟩

/-- C8: `parse_service_uri` splits a URI into provider, service and feature
segments, with missing segments resolving to `none`:
`usgs-nwis:iv/01529500` parses to `(usgs-nwis, iv, 01529500)` and the
provider-only `gebco-bathymetry` parses to `(gebco-bathymetry, none, none)`;
for every input string the function totally returns such a triple (no
exception), tolerating absent service and feature segments. -/
theorem parse_service_uri_segments :
    parse_service_uri "usgs-nwis:iv/01529500" =
      ("usgs-nwis", some "iv", some "01529500") ∧
    parse_service_uri "gebco-bathymetry" = ("gebco-bathymetry", none, none) ∧
    ∀ uri : String, ∃ (provider : String) (service feature : Option String),
      parse_service_uri uri = (provider, service, feature) := by
  refine ⟨by decide, by decide, ?_⟩
  intro uri
  exact ⟨_, _, _, rfl⟩

theorem isUuidChars_replace_head {c c' : Char} {rest : List Char}
    (h : isUuidChars (c :: rest) = true) (hc : isHexLower c' = true) :
    isUuidChars (c' :: rest) = true := by
  simp only [isUuidChars, Bool.and_eq_true, List.all_cons] at h ⊢
  obtain ⟨⟨⟨h1, _, h2⟩, h3⟩, h4⟩ := h
  exact ⟨⟨⟨by simpa using h1, hc, h2⟩, h3⟩, h4⟩

/-- C10: identifiers generated by `uuid` classify back to their type.  For
any draw `raw` of `uuid4().hex` (which always passes `is_uuid`),
`uuid('feature')` replaces only the first character with `f` (so the version
and variant nibbles at indices 12 and 16 are untouched and the result still
passes `is_uuid`) and is classified as `features`; `uuid('dataset')`
likewise yields a `datasets`-classified token; for any other resource type
the raw hex token is returned unmodified. -/
theorem uuid_classifies_back :
    ∀ raw : String, is_uuid raw = true →
      ((uuid "feature" raw).data = 'f' :: raw.data.tail ∧
       is_uuid (uuid "feature" raw) = true ∧
       classify_uri (uuid "feature" raw) = "features" ∧
       (uuid "dataset" raw).data = 'd' :: raw.data.tail ∧
       is_uuid (uuid "dataset" raw) = true ∧
       classify_uri (uuid "dataset" raw) = "datasets" ∧
       ∀ t : String, t ≠ "feature" → t ≠ "dataset" → uuid t raw = raw) := by
  intro raw hu
  have hlen : raw.data.length = 32 := by
    simp only [is_uuid, isUuidChars, Bool.and_eq_true] at hu
    simpa using hu.1.1.1
  cases hd : raw.data with
  | nil => rw [hd] at hlen; simp at hlen
  | cons c rest =>
    have hne : (("feature" : String) == "dataset") = false := by decide
    have hfeat : (uuid "feature" raw).data = 'f' :: rest := by
      simp [uuid, hd, hne]
    have hdats : (uuid "dataset" raw).data = 'd' :: rest := by
      simp [uuid, hd, (by decide : (("dataset" : String) == "feature") = false)]
    have huc : isUuidChars (c :: rest) = true := by
      rw [is_uuid, hd] at hu; exact hu
    have hu_f : is_uuid (uuid "feature" raw) = true := by
      rw [is_uuid, hfeat]
      exact isUuidChars_replace_head huc (by decide)
    have hu_d : is_uuid (uuid "dataset" raw) = true := by
      rw [is_uuid, hdats]
      exact isUuidChars_replace_head huc (by decide)
    have hsw_f : startsWithL "f" (uuid "feature" raw) = true := by
      show (['f'] : List Char).isPrefixOf (uuid "feature" raw).data = true
      rw [hfeat]
      simp [List.isPrefixOf]
    have hsw_d : startsWithL "d" (uuid "dataset" raw) = true := by
      show (['d'] : List Char).isPrefixOf (uuid "dataset" raw).data = true
      rw [hdats]
      simp [List.isPrefixOf]
    have hnf : startsWithL "d" (uuid "feature" raw) = false := by
      show (['d'] : List Char).isPrefixOf (uuid "feature" raw).data = false
      rw [hfeat]
      exact isPrefixOf_false_of_head_ne (by decide)
    have hnd : startsWithL "f" (uuid "dataset" raw) = false := by
      show (['f'] : List Char).isPrefixOf (uuid "dataset" raw).data = false
      rw [hdats]
      exact isPrefixOf_false_of_head_ne (by decide)
    refine ⟨by simp [hfeat, hd], hu_f, ?_, by simp [hdats, hd], hu_d, ?_, ?_⟩
    · simp [classify_uri, hu_f, hsw_f, hnf]
    · simp [classify_uri, hu_d, hsw_d, hnd]
    · intro t ht1 ht2
      simp [uuid, beq_eq_false_iff_ne.2 ht1, beq_eq_false_iff_ne.2 ht2]

/-- Witness for C10: a concrete uuid4 hex draw tagged as a feature is
classified back as `features`. -/
theorem uuid_classifies_back_witness :
    classify_uri (uuid "feature" "a0000000000040008000000000000000") = "features" :=
  (uuid_classifies_back "a0000000000040008000000000000000" (by decide)).2.2.1

/-! ## Round-trip of construct/parse -/

theorem getLastD_pair {α : Type} (x y d : α) : ([x, y] : List α).getLastD d = y := rfl

theorem stringMk_data (s : String) : (⟨s.data⟩ : String) = s := rfl

/-- C9 counterexample: with provider `a` (no `:`/`/`) and service `b:c`
(no `/`), both satisfying the claim's constraints, the round trip truncates
the service at its embedded colon — Python's `svc.split(':')[:2]` keeps only
the first two segments. -/
theorem parse_construct_roundtrip_counterexample :
    (':' ∉ ("a" : String).data ∧ '/' ∉ ("a" : String).data ∧
     '/' ∉ ("b:c" : String).data) ∧
    parse_service_uri (construct_service_uri "a" "b:c" none) = ("a", some "b", none) ∧
    parse_service_uri (construct_service_uri "a" "b:c" none) ≠
      ("a", some "b:c", none) := by
  decide

/-- C9 (amended): the round trip `parse_service_uri ∘ construct_service_uri`
is the identity provided provider, service and (when present) feature each
contain neither `:` nor `/`.  (The original claim let the service contain
`:` and the feature be arbitrary; a `:` in the service is truncated by
`svc.split(':')[:2]`, and a feature containing `://` — or starting with `/`
when the service is empty — shifts the `uri.split('://')[-1]` step, so both
must be excluded.) -/
theorem parse_construct_roundtrip :
    ∀ (provider service : String) (feature : Option String),
      ':' ∉ provider.data → '/' ∉ provider.data →
      ':' ∉ service.data → '/' ∉ service.data →
      (∀ f, feature = some f → ':' ∉ f.data ∧ '/' ∉ f.data) →
      parse_service_uri (construct_service_uri provider service feature) =
        (provider, some service, feature) := by
  intro p s f hpc hps hsc hss hf
  have e1 : ("svc://" : String).data = 's' :: 'v' :: 'c' :: ':' :: '/' :: '/' :: [] := rfl
  have e2 : ((":" : String)).data = [':'] := rfl
  have e3 : (("/" : String)).data = ['/'] := rfl
  have e4 : ("://" : String).data = [':', '/', '/'] := rfl
  cases f with
  | none =>
    have hdata : (construct_service_uri p s none).data =
        's' :: 'v' :: 'c' :: ':' :: '/' :: '/' :: (p.data ++ ':' :: s.data) := by
      simp [construct_service_uri, e1, e2]
    have hb1 : breakOn [':', '/', '/'] ((construct_service_uri p s none).data) =
        some (['s', 'v', 'c'], p.data ++ ':' :: s.data) := by
      rw [hdata, breakOn_cons_ne (by decide : 's' ≠ ':'),
        breakOn_cons_ne (by decide : 'v' ≠ ':'),
        breakOn_cons_ne (by decide : 'c' ≠ ':'), breakOn_self3]
      rfl
    have hpre1 : ([':', '/', '/'] : List Char).isPrefixOf (':' :: s.data) = false := by
      rw [List.isPrefixOf_cons₂, isPrefixOf_false_of_not_mem hss]
      simp
    have hb2 : breakOn [':', '/', '/'] (p.data ++ ':' :: s.data) = none := by
      rw [breakOn_append_not_mem _ hpc, breakOn_cons_notPrefix hpre1,
        breakOn_none_of_not_mem hsc]
      rfl
    have hsplit1 : splitL [':', '/', '/'] ((construct_service_uri p s none).data) =
        [['s', 'v', 'c'], p.data ++ ':' :: s.data] := by
      rw [splitL_break_some (by decide) hb1, splitL_break_none hb2]
    have hb3 : breakOn ['/'] (p.data ++ ':' :: s.data) = none := by
      rw [breakOn_append_not_mem _ hps, breakOn_cons_ne (by decide : ':' ≠ '/'),
        breakOn_none_of_not_mem hss]
      rfl
    have hb4 : breakOn [':'] (p.data ++ ':' :: s.data) = some (p.data, s.data) := by
      rw [breakOn_append_not_mem _ hpc, breakOn_self1]
      simp
    have hsplit2 : splitL [':'] (p.data ++ ':' :: s.data) = [p.data, s.data] := by
      rw [splitL_break_some (by decide) hb4,
        splitL_break_none (breakOn_none_of_not_mem hsc)]
    simp only [parse_service_uri, e2, e3, e4, hsplit1, getLastD_pair, splitOnce, hb3,
      hsplit2, List.headD_cons, List.get?, stringMk_data]
    rfl
  | some fstr =>
    obtain ⟨hfc, hfs⟩ := hf fstr rfl
    have hdata : (construct_service_uri p s (some fstr)).data =
        's' :: 'v' :: 'c' :: ':' :: '/' :: '/' ::
          (p.data ++ ':' :: (s.data ++ '/' :: fstr.data)) := by
      simp [construct_service_uri, e1, e2, e3]
    have hb1 : breakOn [':', '/', '/'] ((construct_service_uri p s (some fstr)).data) =
        some (['s', 'v', 'c'], p.data ++ ':' :: (s.data ++ '/' :: fstr.data)) := by
      rw [hdata, breakOn_cons_ne (by decide : 's' ≠ ':'),
        breakOn_cons_ne (by decide : 'v' ≠ ':'),
        breakOn_cons_ne (by decide : 'c' ≠ ':'), breakOn_self3]
      rfl
    have hpre1 : ([':', '/', '/'] : List Char).isPrefixOf
        (':' :: (s.data ++ '/' :: fstr.data)) = false := by
      rw [List.isPrefixOf_cons₂]
      cases hS : s.data with
      | nil =>
        simp only [List.nil_append]
        rw [List.isPrefixOf_cons₂, isPrefixOf_false_of_not_mem hfs]
        simp
      | cons c0 s' =>
        have hc0 : ¬('/' = c0) := fun he => hss (by rw [hS, ← he]; exact List.mem_cons_self _ _)
        rw [List.cons_append, isPrefixOf_false_of_head_ne hc0]
        simp
    have hb2 : breakOn [':', '/', '/']
        (p.data ++ ':' :: (s.data ++ '/' :: fstr.data)) = none := by
      rw [breakOn_append_not_mem _ hpc, breakOn_cons_notPrefix hpre1,
        breakOn_append_not_mem _ hsc, breakOn_cons_ne (by decide : '/' ≠ ':'),
        breakOn_none_of_not_mem hfc]
      rfl
    have hsplit1 : splitL [':', '/', '/'] ((construct_service_uri p s (some fstr)).data) =
        [['s', 'v', 'c'], p.data ++ ':' :: (s.data ++ '/' :: fstr.data)] := by
      rw [splitL_break_some (by decide) hb1, splitL_break_none hb2]
    have hb3 : breakOn ['/'] (p.data ++ ':' :: (s.data ++ '/' :: fstr.data)) =
        some (p.data ++ ':' :: s.data, fstr.data) := by
      rw [breakOn_append_not_mem _ hps, breakOn_cons_ne (by decide : ':' ≠ '/'),
        breakOn_append_not_mem _ hss, breakOn_self1]
      simp
    have hb4 : breakOn [':'] (p.data ++ ':' :: s.data) = some (p.data, s.data) := by
      rw [breakOn_append_not_mem _ hpc, breakOn_self1]
      simp
    have hsplit2 : splitL [':'] (p.data ++ ':' :: s.data) = [p.data, s.data] := by
      rw [splitL_break_some (by decide) hb4,
        splitL_break_none (breakOn_none_of_not_mem hsc)]
    simp only [parse_service_uri, e2, e3, e4, hsplit1, getLastD_pair, splitOnce, hb3,
      hsplit2, List.headD_cons, List.get?, stringMk_data]
    rfl

/-- Witness for C9 (amended) at concrete inputs: `usgs-nwis` / `iv` /
`01529500` and a feature-less pair round-trip exactly. -/
theorem parse_construct_roundtrip_witness :
    parse_service_uri (construct_service_uri "usgs-nwis" "iv" (some "01529500")) =
      ("usgs-nwis", some "iv", some "01529500") :=
  parse_construct_roundtrip "usgs-nwis" "iv" (some "01529500") (by decide) (by decide)
    (by decide) (by decide) (by intro f hf; cases hf; exact ⟨by decide, by decide⟩)
